import Mathlib

/-!
# Verification of the osmo-fl2k streaming runtime library

Shallow embedding of `src/libosmo-fl2k.c` (osmo-fl2k): the PLL solver and
register decoder, the register read path, the transfer-pool scan, the
completion callback, the sample-worker fill step, the byte-permutation
conversions, and the control-plane guards of `fl2k_set_mode`,
`fl2k_start_tx` and `fl2k_set_sample_rate`.

Modelling conventions:
* C `uint32_t` / `uint8_t` values are `ℕ`; a `% 2 ^ 32` is inserted exactly
  where the C computation can wrap (it cannot in the PLL arithmetic: the
  decoded fields satisfy `mult ≤ 15`, so `160e6 * mult ≤ 2.4e9 < 2 ^ 32`,
  and the truncated offset times `frac` is at most `2.25e9 < 2 ^ 32`).
* IEEE-754 `double` intermediates are modelled as exact rationals `ℚ`; the
  cast `(uint32_t)offset` of a nonnegative double is `⌊·⌋.toNat`.
* Bytes stored in `char` buffers are `ZMod 256` (C `char` arithmetic wraps
  modulo 256 on the relevant platforms).
* Fallible USB operations take their outcome as an explicit parameter.
-/

set_option maxRecDepth 8000

namespace OsmoFl2k

/-- Error taxonomy of the library (`FL2K_SUCCESS`, `FL2K_ERROR_*`).  The
numeric values live in the header `osmo-fl2k.h`, which is not part of the
sources here; only the distinctions between the codes matter for the
claims, so they are modelled as an enumeration. -/
inductive FlErr where
  | success
  | invalidParam
  | busy
  | timeout
  | noDevice
  | notFound
  | noMem
  | other
  deriving DecidableEq, Repr

/-- Async engine status, `enum fl2k_async_status`. -/
inductive AsyncStatus where
  | inactive
  | canceling
  | running
  deriving DecidableEq, Repr

/-! ## PLL register decoding (`fl2k_reg_to_freq`) -/

/-- Embedding of `fl2k_reg_to_freq`.  Field decodes are the C bit
operations; `(pll_clock * mult) / div` is the C `uint32_t` integer
division; the subsequent `double` arithmetic is exact rational arithmetic;
`(uint32_t)offset` truncates the nonnegative offset to a natural number.
(The two `uint32_t` products cannot wrap: see the module comment.) -/
def fl2k_reg_to_freq (reg : ℕ) : ℚ :=
  let pll_clock : ℕ := 160000000
  let div : ℕ := reg &&& 0x3f
  let out_div : ℕ := (reg >>> 8) &&& 0xf
  let frac : ℕ := (reg >>> 16) &&& 0xf
  let mult : ℕ := (reg >>> 20) &&& 0xf
  let sample_clock : ℕ := (pll_clock * mult) / div
  let offs_div : ℚ := ((pll_clock : ℚ) / 5) * (mult : ℚ)
  let offset : ℚ := ((sample_clock : ℚ) / (offs_div / 2)) * 1000000
  let sample_clock2 : ℚ := (sample_clock : ℚ) + ((⌊offset⌋.toNat * frac : ℕ) : ℚ)
  sample_clock2 / (out_div : ℚ)

/-- Decoded rate exactly as the spec's words state it (refinement target
for C2, not a transcription of the code): `base = (160e6 × mult) / div`,
`offset = (base / (160e6 × mult / 5)) × 1e6`,
`f_decoded = (base + offset × frac) / out_div`. -/
def specDecodedRate (reg : ℕ) : ℚ :=
  let div : ℕ := reg &&& 0x3f
  let out_div : ℕ := (reg >>> 8) &&& 0xf
  let frac : ℕ := (reg >>> 16) &&& 0xf
  let mult : ℕ := (reg >>> 20) &&& 0xf
  let base : ℚ := (160000000 * (mult : ℚ)) / (div : ℚ)
  let offset : ℚ := (base / (160000000 * (mult : ℚ) / 5)) * 1000000
  (base + offset * (frac : ℚ)) / (out_div : ℚ)

/-- Decoded rate as the spec's formula reads after the correction forced by
the code: `base` is the `uint32` integer quotient, the fractional step
divides by `160e6 × mult / 10` (half the spec's divisor, i.e. the step is
twice the spec's value), and the offset is truncated to an integer before
being scaled by `frac`. -/
def amendedDecodedRate (reg : ℕ) : ℚ :=
  let div : ℕ := reg &&& 0x3f
  let out_div : ℕ := (reg >>> 8) &&& 0xf
  let frac : ℕ := (reg >>> 16) &&& 0xf
  let mult : ℕ := (reg >>> 20) &&& 0xf
  let base : ℕ := (160000000 * mult) / div
  let offset : ℚ := ((base : ℚ) / (160000000 * (mult : ℚ) / 10)) * 1000000
  ((base : ℚ) + (⌊offset⌋.toNat : ℚ) * (frac : ℚ)) / (out_div : ℚ)

/-! ## PLL solver (`fl2k_set_sample_rate`) -/

/-- Candidate register word built by the solver loop body:
`reg = (mult << 20) | (frac << 16) | (0x60 << 8) | (out_div << 8) | div`
with `out_div = 1`. -/
def fl2k_pll_reg (mult div frac : ℕ) : ℕ :=
  (mult <<< 20) ||| (frac <<< 16) ||| (0x60 <<< 8) ||| (1 <<< 8) ||| div

/-- Outer loop values: `for (mult = 6; mult >= 3; mult--)`. -/
def multList : List ℕ := [6, 5, 4, 3]

/-- Middle loop values: `for (div = 63; div > 1; div--)`. -/
def divList : List ℕ := (List.range 62).map (fun k => 63 - k)

/-- Inner loop values: `for (frac = 1; frac <= 15; frac++)`. -/
def fracList : List ℕ := (List.range 15).map (fun k => k + 1)

/-- The register words visited by the solver's triple loop, in visit
order. -/
def searchRegs : List ℕ :=
  multList.flatMap (fun m => divList.flatMap (fun d => fracList.map (fun f => fl2k_pll_reg m d f)))

/-- The solver's running state: `(result_reg, last_error)`, updated by
`if (fabs(error) < last_error) { result_reg = reg; last_error = fabs(error); }`. -/
def selLoop (err : ℕ → ℚ) : List ℕ → ℕ × ℚ → ℕ × ℚ
  | [], acc => acc
  | c :: cs, acc => selLoop err cs (if err c < acc.2 then (c, err c) else acc)

/-- Absolute error of a candidate register against the target rate,
`fabs(fl2k_reg_to_freq(reg) - (double)target_freq)`. -/
def errAt (target : ℕ) (c : ℕ) : ℚ :=
  |fl2k_reg_to_freq c - (target : ℚ)|

/-- Result of `fl2k_set_sample_rate` on a non-null handle: the selected
register, the decoded rate stored into `dev->rate`, whether the
`fabs(error) > 1` diagnostic fired, and the value returned (that of the
final `fl2k_write_reg`, whose outcome is the parameter `write_ok`). -/
structure RateResult where
  result_reg : ℕ
  rate : ℚ
  warned : Bool
  ret : FlErr
  deriving Repr

/-- Embedding of `fl2k_set_sample_rate`: run the selection loop from
`result_reg = 0`, `last_error = 1e20`, then decode the winner, store it as
the device rate, warn iff the absolute error exceeds 1 Hz, and return the
register write's status. -/
def fl2k_set_sample_rate (target : ℕ) (write_ok : Bool) : RateResult :=
  let p := selLoop (errAt target) searchRegs (0, 10 ^ 20)
  let sample_clock := fl2k_reg_to_freq p.1
  let error := sample_clock - (target : ℚ)
  { result_reg := p.1
    rate := sample_clock
    warned := decide (1 < |error|)
    ret := if write_ok then .success else .other }

/-- Device-handle state relevant to the sample-rate claims: the stored
effective rate, `double rate` in `struct fl2k_dev`. -/
structure RateDev where
  rate : ℚ
  deriving Repr

/-- Embedding of `fl2k_set_sample_rate` at the device level:
`dev->rate = sample_clock` happens before `fl2k_write_reg(dev, 0x802c,
result_reg)`, so the new rate is stored independently of `write_ok`. -/
def fl2k_set_sample_rate_dev (dev : RateDev) (target : ℕ) (write_ok : Bool) :
    RateDev × FlErr :=
  let r := fl2k_set_sample_rate target write_ok
  ({ dev with rate := r.rate }, r.ret)

/-- Embedding of `fl2k_get_sample_rate`: 0 for a null handle, else
`(uint32_t)dev->rate` (truncation of the nonnegative stored rate). -/
def fl2k_get_sample_rate (dev : Option RateDev) : ℕ :=
  match dev with
  | none => 0
  | some d => ⌊d.rate⌋.toNat

/-! ## Generic facts about the solver's selection loop -/

theorem selLoop_le (err : ℕ → ℚ) :
    ∀ (l : List ℕ) (acc : ℕ × ℚ),
      (selLoop err l acc).2 ≤ acc.2 ∧ ∀ c ∈ l, (selLoop err l acc).2 ≤ err c := by
  intro l
  induction l with
  | nil => intro acc; exact ⟨le_refl _, by simp⟩
  | cons c cs ih =>
    intro acc
    simp only [selLoop]
    by_cases hc : err c < acc.2
    · simp only [hc, if_pos]
      refine ⟨le_trans (ih (c, err c)).1 (le_of_lt hc), ?_⟩
      intro d hd
      rcases List.mem_cons.mp hd with h | h
      · exact h ▸ (ih (c, err c)).1
      · exact (ih (c, err c)).2 d h
    · simp only [hc, if_neg, not_false_iff]
      refine ⟨(ih acc).1, ?_⟩
      intro d hd
      rcases List.mem_cons.mp hd with h | h
      · exact h ▸ le_trans (ih acc).1 (le_of_not_lt hc)
      · exact (ih acc).2 d h

theorem selLoop_eq_or_lt (err : ℕ → ℚ) :
    ∀ (l : List ℕ) (acc : ℕ × ℚ),
      selLoop err l acc = acc ∨ (selLoop err l acc).2 < acc.2 := by
  intro l
  induction l with
  | nil => intro acc; exact Or.inl rfl
  | cons c cs ih =>
    intro acc
    simp only [selLoop]
    by_cases hc : err c < acc.2
    · simp only [hc, if_pos]
      rcases ih (c, err c) with h | h
      · exact Or.inr (by rw [h]; exact hc)
      · exact Or.inr (lt_trans h hc)
    · simp only [hc, if_neg, not_false_iff]
      exact ih acc

theorem selLoop_first (err : ℕ → ℚ) :
    ∀ (l : List ℕ) (acc : ℕ × ℚ),
      (selLoop err l acc).2 < acc.2 →
      ∃ i c, l.get? i = some c ∧ (selLoop err l acc).1 = c ∧
        (selLoop err l acc).2 = err c ∧
        ∀ j d, j < i → l.get? j = some d → (selLoop err l acc).2 < err d := by
  intro l
  induction l with
  | nil => intro acc h; exact absurd h (lt_irrefl _)
  | cons c cs ih =>
    intro acc h
    simp only [selLoop] at h ⊢
    by_cases hc : err c < acc.2
    · simp only [hc, if_pos] at h ⊢
      rcases selLoop_eq_or_lt err cs (c, err c) with heq | hlt
      · refine ⟨0, c, rfl, ?_, ?_, ?_⟩
        · rw [heq]
        · rw [heq]
        · intro j d hj; omega
      · obtain ⟨i, d, hget, h1, h2, h3⟩ := ih (c, err c) hlt
        refine ⟨i + 1, d, hget, h1, h2, ?_⟩
        intro j e hj hje
        match j with
        | 0 =>
          simp only [List.get?] at hje
          cases hje
          exact hlt
        | j + 1 =>
          exact h3 j e (by omega) hje
    · simp only [hc, if_neg, not_false_iff] at h ⊢
      obtain ⟨i, d, hget, h1, h2, h3⟩ := ih acc h
      refine ⟨i + 1, d, hget, h1, h2, ?_⟩
      intro j e hj hje
      match j with
      | 0 =>
        simp only [List.get?] at hje
        cases hje
        exact lt_of_lt_of_le h (le_of_not_lt hc)
      | j + 1 =>
        exact h3 j e (by omega) hje

/-- The first candidate the triple loop visits is mult 6, div 63, frac 1. -/
theorem searchRegs_head : searchRegs.get? 0 = some (fl2k_pll_reg 6 63 1) := by rfl

theorem searchRegs_head_mem : fl2k_pll_reg 6 63 1 ∈ searchRegs :=
  List.get?_mem searchRegs_head

/-- Decoded rate of the first candidate: `⌊(160e6·6)/63⌋ = 15238095`,
offset `⌊15238095/96⌋ = 158730`, so `15238095 + 158730 = 15396825`. -/
theorem freq_first_candidate : fl2k_reg_to_freq (fl2k_pll_reg 6 63 1) = 15396825 := by
  have hreg : fl2k_pll_reg 6 63 1 = 6381887 := by rfl
  rw [hreg]
  unfold fl2k_reg_to_freq
  norm_num [show (6381887 : ℕ) &&& 63 = 63 from rfl,
    show (6381887 : ℕ) >>> 8 &&& 15 = 1 from rfl,
    show (6381887 : ℕ) >>> 16 &&& 15 = 1 from rfl,
    show (6381887 : ℕ) >>> 20 &&& 15 = 6 from rfl,
    show (158730 : ℤ).toNat = 158730 from rfl]

theorem errAt_first_lt (target : ℕ) (ht : target < 2 ^ 32) :
    errAt target (fl2k_pll_reg 6 63 1) < 10 ^ 20 := by
  unfold errAt
  rw [freq_first_candidate]
  have h : (target : ℚ) < 2 ^ 32 := by exact_mod_cast ht
  rw [abs_lt]
  constructor <;> push_cast <;> [linarith; linarith]

theorem set_sample_rate_result_reg (target : ℕ) (write_ok : Bool) :
    (fl2k_set_sample_rate target write_ok).result_reg =
      (selLoop (errAt target) searchRegs (0, 10 ^ 20)).1 := rfl

theorem set_sample_rate_rate_eq (target : ℕ) (write_ok : Bool) :
    (fl2k_set_sample_rate target write_ok).rate =
      fl2k_reg_to_freq (fl2k_set_sample_rate target write_ok).result_reg := rfl

theorem set_sample_rate_warned_iff (target : ℕ) (write_ok : Bool) :
    (fl2k_set_sample_rate target write_ok).warned = true ↔
      1 < |fl2k_reg_to_freq (fl2k_set_sample_rate target write_ok).result_reg - (target : ℚ)| := by
  simp only [fl2k_set_sample_rate, decide_eq_true_eq]

/-- Claim C1: `fl2k_set_sample_rate` searches mult ∈ {6,5,4,3}, div ∈ [63,2]
descending, frac ∈ [1,15] ascending with out_div = 1 (the list
`searchRegs` in visit order), keeps the register minimizing
`|f_decoded - f_target|` with the first candidate kept on ties, stores the
decoded rate of the winner as the device's effective rate, and warns
exactly when the absolute error exceeds 1 Hz. -/
theorem fl2k_set_sample_rate_selects_closest (target : ℕ) (write_ok : Bool)
    (ht : target < 2 ^ 32) :
    (∀ c ∈ searchRegs,
        errAt target (fl2k_set_sample_rate target write_ok).result_reg ≤ errAt target c) ∧
    (∃ i, searchRegs.get? i = some (fl2k_set_sample_rate target write_ok).result_reg ∧
        ∀ j d, j < i → searchRegs.get? j = some d →
          errAt target (fl2k_set_sample_rate target write_ok).result_reg < errAt target d) ∧
    (fl2k_set_sample_rate target write_ok).rate =
      fl2k_reg_to_freq (fl2k_set_sample_rate target write_ok).result_reg ∧
    ((fl2k_set_sample_rate target write_ok).warned = true ↔
      1 < |fl2k_reg_to_freq (fl2k_set_sample_rate target write_ok).result_reg - (target : ℚ)|) := by
  have hlt : (selLoop (errAt target) searchRegs (0, 10 ^ 20)).2 < 10 ^ 20 := by
    calc (selLoop (errAt target) searchRegs (0, 10 ^ 20)).2
        ≤ errAt target (fl2k_pll_reg 6 63 1) :=
          (selLoop_le (errAt target) searchRegs (0, 10 ^ 20)).2 _ searchRegs_head_mem
      _ < 10 ^ 20 := errAt_first_lt target ht
  obtain ⟨i, c, hget, h1, h2, h3⟩ := selLoop_first (errAt target) searchRegs (0, 10 ^ 20) hlt
  have hreg := set_sample_rate_result_reg target write_ok
  have herr : errAt target (fl2k_set_sample_rate target write_ok).result_reg =
      (selLoop (errAt target) searchRegs (0, 10 ^ 20)).2 := by
    rw [hreg, h1, h2]
  refine ⟨?_, ⟨i, ?_, ?_⟩, set_sample_rate_rate_eq target write_ok,
    set_sample_rate_warned_iff target write_ok⟩
  · intro d hd
    rw [herr]
    exact (selLoop_le (errAt target) searchRegs (0, 10 ^ 20)).2 d hd
  · rw [hreg, h1]; exact hget
  · intro j d hj hjd
    rw [herr]
    exact h3 j d hj hjd

/-- Witness for C1 at the concrete target 100000000 Hz. -/
theorem fl2k_set_sample_rate_selects_closest_witness :
    (100000000 : ℕ) < 2 ^ 32 ∧
    ((∀ c ∈ searchRegs,
        errAt 100000000 (fl2k_set_sample_rate 100000000 true).result_reg ≤ errAt 100000000 c) ∧
    (∃ i, searchRegs.get? i = some (fl2k_set_sample_rate 100000000 true).result_reg ∧
        ∀ j d, j < i → searchRegs.get? j = some d →
          errAt 100000000 (fl2k_set_sample_rate 100000000 true).result_reg < errAt 100000000 d) ∧
    (fl2k_set_sample_rate 100000000 true).rate =
      fl2k_reg_to_freq (fl2k_set_sample_rate 100000000 true).result_reg ∧
    ((fl2k_set_sample_rate 100000000 true).warned = true ↔
      1 < |fl2k_reg_to_freq (fl2k_set_sample_rate 100000000 true).result_reg - (100000000 : ℚ)|)) :=
  ⟨by norm_num, fl2k_set_sample_rate_selects_closest 100000000 true (by norm_num)⟩

/-- Counterexample for C2: for the register word with mult = 6, div = 10,
frac = 1, out_div = 1 the spec's formula yields 96.5 MHz while the code
decodes 97 MHz (the code divides by `offs_div / 2`, not `offs_div`). -/
theorem specDecodedRate_ne_code :
    specDecodedRate (fl2k_pll_reg 6 10 1) ≠ fl2k_reg_to_freq (fl2k_pll_reg 6 10 1) := by
  have hreg : fl2k_pll_reg 6 10 1 = 6381834 := by rfl
  rw [hreg]
  have h1 : specDecodedRate 6381834 = 96500000 := by
    unfold specDecodedRate
    norm_num [show (6381834 : ℕ) &&& 63 = 10 from rfl,
      show (6381834 : ℕ) >>> 8 &&& 15 = 1 from rfl,
      show (6381834 : ℕ) >>> 16 &&& 15 = 1 from rfl,
      show (6381834 : ℕ) >>> 20 &&& 15 = 6 from rfl]
  have h2 : fl2k_reg_to_freq 6381834 = 97000000 := by
    unfold fl2k_reg_to_freq
    norm_num [show (6381834 : ℕ) &&& 63 = 10 from rfl,
      show (6381834 : ℕ) >>> 8 &&& 15 = 1 from rfl,
      show (6381834 : ℕ) >>> 16 &&& 15 = 1 from rfl,
      show (6381834 : ℕ) >>> 20 &&& 15 = 6 from rfl,
      show (1000000 : ℤ).toNat = 1000000 from rfl]
  rw [h1, h2]
  norm_num

/-- Amended claim C2: for every register word, the code's decoded rate equals
`(base + ⌊offset⌋ × frac) / out_div` where `base` is the integer quotient
`(160e6 × mult) / div` and `offset = (base / (160e6 × mult / 10)) × 1e6`
(twice the spec's fractional step). -/
theorem fl2k_freq_div_step (x m : ℚ) :
    x / ((160000000 : ℚ) / 5 * m / 2) * 1000000 = x / ((160000000 : ℚ) * m / 10) * 1000000 := by
  ring_nf

theorem fl2k_reg_to_freq_eq_amended (reg : ℕ) :
    fl2k_reg_to_freq reg = amendedDecodedRate reg := by
  simp only [fl2k_reg_to_freq, amendedDecodedRate]
  push_cast
  rw [fl2k_freq_div_step]

/-- Claim C10: the solver stores the decoded rate into the handle before the
PLL register write, so a failed write (`write_ok = false`) returns an
error while the stored rate has already been replaced by the decoded rate
of the selected register; the stored state is identical to the
successful-write case, and `fl2k_get_sample_rate` then reports that rate
truncated to an unsigned integer (and 0 on a null handle). -/
theorem set_rate_dev_rate (dev : RateDev) (target : ℕ) :
    (fl2k_set_sample_rate_dev dev target false).1.rate =
      fl2k_reg_to_freq (fl2k_set_sample_rate target false).result_reg := rfl

theorem set_rate_dev_ret (dev : RateDev) (target : ℕ) :
    (fl2k_set_sample_rate_dev dev target false).2 = FlErr.other := rfl

theorem set_rate_dev_state_independent_of_write (dev : RateDev) (target : ℕ) :
    (fl2k_set_sample_rate_dev dev target false).1 =
      (fl2k_set_sample_rate_dev dev target true).1 := rfl

theorem get_rate_after_failed_write (dev : RateDev) (target : ℕ) :
    fl2k_get_sample_rate (some (fl2k_set_sample_rate_dev dev target false).1) =
      (⌊fl2k_reg_to_freq (fl2k_set_sample_rate target false).result_reg⌋).toNat := rfl

theorem fl2k_set_sample_rate_stores_rate_despite_write_failure (dev : RateDev) (target : ℕ) :
    (fl2k_set_sample_rate_dev dev target false).1.rate =
      fl2k_reg_to_freq (fl2k_set_sample_rate target false).result_reg ∧
    (fl2k_set_sample_rate_dev dev target false).2 = FlErr.other ∧
    (fl2k_set_sample_rate_dev dev target false).1 =
      (fl2k_set_sample_rate_dev dev target true).1 ∧
    fl2k_get_sample_rate (some (fl2k_set_sample_rate_dev dev target false).1) =
      (⌊fl2k_reg_to_freq (fl2k_set_sample_rate target false).result_reg⌋).toNat ∧
    fl2k_get_sample_rate none = 0 :=
  ⟨set_rate_dev_rate dev target, set_rate_dev_ret dev target,
    set_rate_dev_state_independent_of_write dev target,
    get_rate_after_failed_write dev target, rfl⟩

/-! ## Transfer pool (`fl2k_xfer_info_t`, `fl2k_get_next_xfer`) -/

/-- Slot state tag, `enum fl2k_buf_state`. -/
inductive BufState where
  | empty
  | submitted
  | filled
  deriving DecidableEq, Repr

/-- Slot metadata, `struct fl2k_xfer_info` (the `dev` back-pointer is
implicit in the model). -/
structure XferInfo where
  seq : ℕ
  state : BufState
  deriving DecidableEq, Repr

/-- Status of a completed libusb transfer as far as the callback
distinguishes it: `LIBUSB_TRANSFER_COMPLETED`, `LIBUSB_TRANSFER_CANCELLED`
or any of the remaining error statuses. -/
inductive XferStatus where
  | completed
  | cancelled
  | failed
  deriving DecidableEq, Repr

/-- Loop of `fl2k_get_next_xfer`: scan slots in index order carrying
`next_buf` (C: `int next_buf = -1`, modelled as `Option ℕ`) and
`next_seq` (C: `uint64_t next_seq = 0`).  A slot in the wanted state
returns immediately when the wanted state is `BUF_EMPTY`; otherwise it is
adopted when `xfer_info->seq < next_seq || next_buf < 0`.  After the scan
the candidate is returned only for `BUF_FILLED`. -/
def nextXferScan (want : BufState) : List XferInfo → ℕ → Option ℕ → ℕ → Option ℕ
  | [], _, next_buf, _ => if want = BufState.filled then next_buf else none
  | x :: xs, i, next_buf, next_seq =>
    if x.state = want then
      if want = BufState.empty then some i
      else if x.seq < next_seq ∨ next_buf = none then
        nextXferScan want xs (i + 1) (some i) x.seq
      else nextXferScan want xs (i + 1) next_buf next_seq
    else nextXferScan want xs (i + 1) next_buf next_seq

/-- Embedding of `fl2k_get_next_xfer` (the slot index stands for the
returned transfer pointer; `none` is the NULL return). -/
def fl2k_get_next_xfer (pool : List XferInfo) (want : BufState) : Option ℕ :=
  nextXferScan want pool 0 none 0

/-- Soundness of the `BUF_FILLED` scan: a returned index is either the
carried candidate or a filled slot of the scanned suffix whose sequence
number is minimal among the suffix's filled slots and no larger than the
carried `next_seq`. -/
theorem nextXferScan_filled_sound :
    ∀ (xs : List XferInfo) (i : ℕ) (nb : Option ℕ) (ns k : ℕ),
      nextXferScan BufState.filled xs i nb ns = some k →
      ∃ s, ((nb = some k ∧ s = ns) ∨
            (∃ m x, xs.get? m = some x ∧ k = i + m ∧ x.state = BufState.filled ∧ x.seq = s)) ∧
        (∀ m y, xs.get? m = some y → y.state = BufState.filled → s ≤ y.seq) ∧
        (nb = none ∨ s ≤ ns) := by
  intro xs
  induction xs with
  | nil =>
    intro i nb ns k h
    simp only [nextXferScan, if_pos rfl] at h
    exact ⟨ns, Or.inl ⟨h, rfl⟩, by intro m y hm; simp at hm, Or.inr (le_refl ns)⟩
  | cons x rest ih =>
    intro i nb ns k h
    simp only [nextXferScan] at h
    by_cases hx : x.state = BufState.filled
    · rw [if_pos hx] at h
      have hne : BufState.filled ≠ BufState.empty := by simp
      rw [if_neg hne] at h
      by_cases hcond : x.seq < ns ∨ nb = none
      · rw [if_pos hcond] at h
        obtain ⟨s, hor, hmin, hns⟩ := ih (i + 1) (some i) x.seq k h
        refine ⟨s, ?_, ?_, ?_⟩
        · rcases hor with ⟨hk, hs⟩ | ⟨m, y, hm, hk, hst, hsq⟩
          · refine Or.inr ⟨0, x, rfl, ?_, hx, ?_⟩
            · cases hk; omega
            · omega
          · exact Or.inr ⟨m + 1, y, hm, by omega, hst, hsq⟩
        · intro m y hm hy
          match m with
          | 0 =>
            simp only [List.get?] at hm
            cases hm
            rcases hns with hns | hns
            · exact absurd hns (by simp)
            · exact hns
          | m + 1 => exact hmin m y hm hy
        · rcases hcond with hlt | hnone
          · rcases hns with hns | hns
            · exact absurd hns (by simp)
            · exact Or.inr (le_of_lt (lt_of_le_of_lt hns hlt))
          · exact Or.inl hnone
      · rw [if_neg hcond] at h
        push_neg at hcond
        obtain ⟨hge, hnb⟩ := hcond
        obtain ⟨s, hor, hmin, hns⟩ := ih (i + 1) nb ns k h
        refine ⟨s, ?_, ?_, ?_⟩
        · rcases hor with ⟨hk, hs⟩ | ⟨m, y, hm, hk, hst, hsq⟩
          · exact Or.inl ⟨hk, hs⟩
          · exact Or.inr ⟨m + 1, y, hm, by omega, hst, hsq⟩
        · intro m y hm hy
          match m with
          | 0 =>
            simp only [List.get?] at hm
            cases hm
            rcases hns with hns | hns
            · exact absurd hns hnb
            · exact le_trans hns hge
          | m + 1 => exact hmin m y hm hy
        · exact hns
    · rw [if_neg hx] at h
      obtain ⟨s, hor, hmin, hns⟩ := ih (i + 1) nb ns k h
      refine ⟨s, ?_, ?_, ?_⟩
      · rcases hor with ⟨hk, hs⟩ | ⟨m, y, hm, hk, hst, hsq⟩
        · exact Or.inl ⟨hk, hs⟩
        · exact Or.inr ⟨m + 1, y, hm, by omega, hst, hsq⟩
      · intro m y hm hy
        match m with
        | 0 =>
          simp only [List.get?] at hm
          cases hm
          exact absurd hy hx
        | m + 1 => exact hmin m y hm hy
      · exact hns

/-- `fl2k_get_next_xfer(dev, BUF_FILLED)` returns a filled slot of minimal
sequence number among all filled slots. -/
theorem fl2k_get_next_xfer_filled_min (pool : List XferInfo) (k : ℕ)
    (h : fl2k_get_next_xfer pool BufState.filled = some k) :
    ∃ x, pool.get? k = some x ∧ x.state = BufState.filled ∧
      ∀ j y, pool.get? j = some y → y.state = BufState.filled → x.seq ≤ y.seq := by
  obtain ⟨s, hor, hmin, _⟩ := nextXferScan_filled_sound pool 0 none 0 k h
  rcases hor with ⟨hk, _⟩ | ⟨m, x, hm, hk, hst, hsq⟩
  · exact absurd hk (by simp)
  · refine ⟨x, ?_, hst, ?_⟩
    · rw [hk]; simpa using hm
    · intro j y hj hy
      rw [hsq]
      exact hmin j y hj hy

/-- When no slot is filled, the `BUF_FILLED` scan comes back empty
handed. -/
theorem nextXferScan_no_filled :
    ∀ (xs : List XferInfo) (i ns : ℕ), (∀ x ∈ xs, x.state ≠ BufState.filled) →
      nextXferScan BufState.filled xs i none ns = none := by
  intro xs
  induction xs with
  | nil => intro i ns _; simp [nextXferScan]
  | cons x rest ih =>
    intro i ns hno
    have hx : x.state ≠ BufState.filled := hno x (List.mem_cons_self x rest)
    simp only [nextXferScan, if_neg hx]
    exact ih (i + 1) ns (fun y hy => hno y (List.mem_cons_of_mem x hy))

theorem fl2k_get_next_xfer_no_filled (pool : List XferInfo)
    (h : ∀ x ∈ pool, x.state ≠ BufState.filled) :
    fl2k_get_next_xfer pool BufState.filled = none :=
  nextXferScan_no_filled pool 0 0 h

/-! ## Streaming engine: completion callback and sample-worker fill -/

/-- In-place update of one slot's metadata (a write through the
`fl2k_xfer_info_t` pointer of slot `n`). -/
def modifySlot : List XferInfo → ℕ → (XferInfo → XferInfo) → List XferInfo
  | [], _, _ => []
  | x :: xs, 0, f => f x :: xs
  | x :: xs, n + 1, f => x :: modifySlot xs n f

/-- The libusb error code the callback compares the resubmit result
against. -/
def LIBUSB_ERROR_NO_DEVICE : Int := -4

/-- Engine state shared between the sample worker and the completion
callback: the slot metadata array, the transfer buffers (abstract
contents of type `β`), the worker's `buf_cnt`, the device's underflow
counter, async status and lost flag. -/
structure Engine (β : Type) where
  pool : List XferInfo
  bufs : ℕ → β
  buf_cnt : ℕ
  underflow_cnt : ℕ
  async_status : AsyncStatus
  dev_lost : Bool

/-- Embedding of `fl2k_stop_tx`: RUNNING → CANCELING (success), any other
non-INACTIVE state → INACTIVE (success), INACTIVE → BUSY. -/
def fl2k_stop_tx {β : Type} (e : Engine β) : Engine β × FlErr :=
  if e.async_status = AsyncStatus.running then
    ({ e with async_status := AsyncStatus.canceling }, FlErr.success)
  else if e.async_status ≠ AsyncStatus.inactive then
    ({ e with async_status := AsyncStatus.inactive }, FlErr.success)
  else (e, FlErr.busy)

/-- Embedding of `_libusb_callback` for the completed transfer at slot
`i`.  `submit_ret` is the return value of whichever
`libusb_submit_transfer` call the callback issues (`r` stays 0 when no
submit happens).  The returned list holds the indices of the transfers
submitted by the callback, in order.  Buffer contents are never touched
by the callback. -/
def libusbCallback {β : Type} (e : Engine β) (i : ℕ) (xstatus : XferStatus)
    (submit_ret : Int) : Engine β × List ℕ :=
  let step :=
    if xstatus = XferStatus.completed ∧ e.async_status = AsyncStatus.running then
      match fl2k_get_next_xfer e.pool BufState.filled with
      | some ni =>
        let pool1 := modifySlot e.pool ni (fun x => { x with state := BufState.submitted })
        let pool2 := modifySlot pool1 i (fun x => { x with state := BufState.empty })
        (({ e with pool := pool2 }, [ni]), submit_ret)
      | none =>
        (({ e with underflow_cnt := e.underflow_cnt + 1 }, [i]), submit_ret)
    else ((e, []), (0 : Int))
  let e1 := step.1.1
  let subs := step.1.2
  let r := step.2
  if (xstatus ≠ XferStatus.cancelled ∧ xstatus ≠ XferStatus.completed) ∨
      r = LIBUSB_ERROR_NO_DEVICE then
    ((fl2k_stop_tx { e1 with dev_lost := true }).1, subs)
  else (e1, subs)

/-- Session events: a sample-worker fill attempt (with the converted data
it would write into the acquired buffer) or a completion callback. -/
inductive Ev (β : Type) where
  | fill (data : β)
  | complete (i : ℕ) (xstatus : XferStatus) (submit_ret : Int)

/-- One engine step.  The fill event embeds the tail of the sample-worker
loop body: acquire an EMPTY slot via `fl2k_get_next_xfer`, write the
converted data into its buffer, then `xfer_info->seq = buf_cnt++;
xfer_info->state = BUF_FILLED;`.  The second component is the sequence
number assigned by the step, if any. -/
def engineStep {β : Type} (e : Engine β) : Ev β → Engine β × Option ℕ
  | Ev.fill data =>
    match fl2k_get_next_xfer e.pool BufState.empty with
    | none => (e, none)
    | some i =>
      ({ e with
          bufs := Function.update e.bufs i data
          pool := modifySlot e.pool i
            (fun x => { x with seq := e.buf_cnt, state := BufState.filled })
          buf_cnt := e.buf_cnt + 1 }, some e.buf_cnt)
  | Ev.complete i st r => ((libusbCallback e i st r).1, none)

/-- The sequence numbers assigned at EMPTY → FILLED transitions along a
trace of events, in order of assignment. -/
def assignedSeqs {β : Type} : Engine β → List (Ev β) → List ℕ
  | _, [] => []
  | e, ev :: evs =>
    match engineStep e ev with
    | (e1, none) => assignedSeqs e1 evs
    | (e1, some n) => n :: assignedSeqs e1 evs

theorem libusbCallback_buf_cnt {β : Type} (e : Engine β) (i : ℕ) (st : XferStatus)
    (r : Int) : (libusbCallback e i st r).1.buf_cnt = e.buf_cnt := by
  unfold libusbCallback fl2k_stop_tx
  dsimp only
  repeat' split
  all_goals rfl

theorem assignedSeqs_bounds {β : Type} :
    ∀ (evs : List (Ev β)) (e : Engine β),
      (∀ n ∈ assignedSeqs e evs, e.buf_cnt ≤ n) ∧
      List.Pairwise (· < ·) (assignedSeqs e evs) := by
  intro evs
  induction evs with
  | nil => intro e; simp [assignedSeqs]
  | cons ev evs ih =>
    intro e
    match hev : ev with
    | Ev.fill data =>
      match hg : fl2k_get_next_xfer e.pool BufState.empty with
      | none =>
        have hstep : engineStep e (Ev.fill data) = (e, none) := by
          simp [engineStep, hg]
        simp only [assignedSeqs, hstep]
        exact ih e
      | some i =>
        have hstep : engineStep e (Ev.fill data) =
            ({ e with
                bufs := Function.update e.bufs i data
                pool := modifySlot e.pool i
                  (fun x => { x with seq := e.buf_cnt, state := BufState.filled })
                buf_cnt := e.buf_cnt + 1 }, some e.buf_cnt) := by
          simp [engineStep, hg]
        simp only [assignedSeqs, hstep]
        obtain ⟨ihb, ihp⟩ := ih { e with
          bufs := Function.update e.bufs i data
          pool := modifySlot e.pool i
            (fun x => { x with seq := e.buf_cnt, state := BufState.filled })
          buf_cnt := e.buf_cnt + 1 }
        refine ⟨?_, ?_⟩
        · intro n hn
          rcases List.mem_cons.mp hn with h | h
          · omega
          · have := ihb n h
            simp only at this
            omega
        · refine List.Pairwise.cons ?_ ihp
          intro n hn
          have := ihb n hn
          simp only at this
          omega
    | Ev.complete i st r =>
      have hstep : engineStep e (Ev.complete i st r) = ((libusbCallback e i st r).1, none) := rfl
      simp only [assignedSeqs, hstep]
      obtain ⟨ihb, ihp⟩ := ih (libusbCallback e i st r).1
      refine ⟨?_, ihp⟩
      intro n hn
      have := ihb n hn
      rw [libusbCallback_buf_cnt] at this
      exact this

/-- Claim C5: when a transfer completes with status COMPLETED while the engine
is RUNNING and no pool slot is FILLED, the callback resubmits the
just-completed transfer itself (submit list `[i]`), leaves every buffer's
contents and every slot's metadata unchanged (the slot stays SUBMITTED),
and increments the underflow counter by exactly one — so the endpoint is
never left without a submitted transfer in this case. -/
theorem libusbCallback_underflow_resubmits {β : Type} (e : Engine β) (i : ℕ)
    (submit_ret : Int)
    (hrun : e.async_status = AsyncStatus.running)
    (hnof : ∀ x ∈ e.pool, x.state ≠ BufState.filled) :
    (libusbCallback e i XferStatus.completed submit_ret).2 = [i] ∧
    (libusbCallback e i XferStatus.completed submit_ret).1.underflow_cnt =
      e.underflow_cnt + 1 ∧
    (libusbCallback e i XferStatus.completed submit_ret).1.bufs = e.bufs ∧
    (libusbCallback e i XferStatus.completed submit_ret).1.pool = e.pool := by
  have hg := fl2k_get_next_xfer_no_filled e.pool hnof
  by_cases hnd : submit_ret = LIBUSB_ERROR_NO_DEVICE
  · simp [libusbCallback, hg, hrun, fl2k_stop_tx, hnd]
  · simp [libusbCallback, hg, hrun, fl2k_stop_tx, hnd]

/-- Witness for C5 on a one-slot pool whose slot is SUBMITTED. -/
theorem libusbCallback_underflow_resubmits_witness :
    (libusbCallback (⟨[⟨0, BufState.submitted⟩], fun _ => (), 0, 0,
        AsyncStatus.running, false⟩ : Engine Unit) 0 XferStatus.completed 0).2 = [0] ∧
    (libusbCallback (⟨[⟨0, BufState.submitted⟩], fun _ => (), 0, 0,
        AsyncStatus.running, false⟩ : Engine Unit) 0 XferStatus.completed 0).1.underflow_cnt =
      0 + 1 ∧
    (libusbCallback (⟨[⟨0, BufState.submitted⟩], fun _ => (), 0, 0,
        AsyncStatus.running, false⟩ : Engine Unit) 0 XferStatus.completed 0).1.bufs =
      (fun _ => ()) ∧
    (libusbCallback (⟨[⟨0, BufState.submitted⟩], fun _ => (), 0, 0,
        AsyncStatus.running, false⟩ : Engine Unit) 0 XferStatus.completed 0).1.pool =
      [⟨0, BufState.submitted⟩] :=
  libusbCallback_underflow_resubmits
    (⟨[⟨0, BufState.submitted⟩], fun _ => (), 0, 0, AsyncStatus.running, false⟩ : Engine Unit)
    0 0 rfl (by decide)

/-- Claim C6: sequence numbers assigned at EMPTY → FILLED transitions are
strictly increasing along any event trace, and whenever the completion
callback selects a FILLED slot to submit it submits exactly the FILLED
slot whose sequence number is minimal among all currently FILLED
slots. -/
theorem fl2k_seq_monotone_and_fifo {β : Type} :
    (∀ (e : Engine β) (evs : List (Ev β)),
      List.Pairwise (· < ·) (assignedSeqs e evs)) ∧
    (∀ (e : Engine β) (i k : ℕ) (r : Int),
      e.async_status = AsyncStatus.running →
      fl2k_get_next_xfer e.pool BufState.filled = some k →
      (libusbCallback e i XferStatus.completed r).2 = [k] ∧
      ∃ x, e.pool.get? k = some x ∧ x.state = BufState.filled ∧
        ∀ j y, e.pool.get? j = some y → y.state = BufState.filled → x.seq ≤ y.seq) := by
  constructor
  · intro e evs
    exact (assignedSeqs_bounds evs e).2
  · intro e i k r hrun hg
    refine ⟨?_, fl2k_get_next_xfer_filled_min e.pool k hg⟩
    by_cases hnd : r = LIBUSB_ERROR_NO_DEVICE
    · simp [libusbCallback, hg, hrun, fl2k_stop_tx, hnd]
    · simp [libusbCallback, hg, hrun, fl2k_stop_tx, hnd]

/-- Witness for C6: two fills assign 0 then 1; on a pool with FILLED
seqs 5 and 3 the callback submits slot 1 (seq 3). -/
theorem fl2k_seq_monotone_and_fifo_witness :
    List.Pairwise (· < ·) (assignedSeqs (⟨[⟨0, BufState.empty⟩, ⟨0, BufState.empty⟩],
        fun _ => (), 0, 0, AsyncStatus.running, false⟩ : Engine Unit)
      [Ev.fill (), Ev.fill ()]) ∧
    ((libusbCallback (⟨[⟨5, BufState.filled⟩, ⟨3, BufState.filled⟩], fun _ => (), 0, 0,
        AsyncStatus.running, false⟩ : Engine Unit) 0 XferStatus.completed 0).2 = [1] ∧
      ∃ x, ([⟨5, BufState.filled⟩, ⟨3, BufState.filled⟩] : List XferInfo).get? 1 = some x ∧
        x.state = BufState.filled ∧
        ∀ j y, ([⟨5, BufState.filled⟩, ⟨3, BufState.filled⟩] : List XferInfo).get? j = some y →
          y.state = BufState.filled → x.seq ≤ y.seq) :=
  ⟨(fl2k_seq_monotone_and_fifo (β := Unit)).1 _ _,
    (fl2k_seq_monotone_and_fifo (β := Unit)).2
      (⟨[⟨5, BufState.filled⟩, ⟨3, BufState.filled⟩], fun _ => (), 0, 0,
        AsyncStatus.running, false⟩ : Engine Unit) 0 1 0 rfl rfl⟩

/-! ## `fl2k_start_tx` -/

/-- Modelled from the spec: `FL2K_BUF_LEN` lives in the header
`osmo-fl2k.h`, which is not among the sources; §3 of the spec gives the
producer buffer length 1,310,720 bytes, and the wire transfer carries the
three channels. -/
def FL2K_BUF_LEN : ℕ := 1310720

/-- Modelled from the spec: wire-transfer length, three channels of
`FL2K_BUF_LEN` bytes. -/
def FL2K_XFER_LEN : ℕ := 3 * FL2K_BUF_LEN

/-- `#define DEFAULT_BUF_NUMBER 4`. -/
def DEFAULT_BUF_NUMBER : ℕ := 4

/-- Device-handle fields `fl2k_start_tx` touches. -/
structure TxDev where
  async_status : AsyncStatus
  async_cancel : Bool
  has_cb : Bool
  xfer_num : ℕ
  xfer_buf_num : ℕ
  xfer_buf_len : ℕ
  deriving DecidableEq, Repr

/-- Outcomes of the fallible steps inside `fl2k_start_tx`:
`fl2k_alloc_submit_transfers` returning a negative code, and the two
`pthread_create` calls returning a negative value. -/
structure StartEnv where
  alloc_fails : Bool
  usb_thread_fails : Bool
  sample_thread_fails : Bool
  deriving DecidableEq, Repr

/-- Embedding of `fl2k_start_tx`.  The C function validates only
`!dev || !cb`, then unconditionally sets `async_status = FL2K_RUNNING`,
`async_cancel = 0`, the callback, `xfer_num` (caller's `buf_num` or the
default), `xfer_buf_num = xfer_num + 2` and
`xfer_buf_len = FL2K_XFER_LEN`; it returns `FL2K_ERROR_BUSY` exactly from
the `cleanup:` path reached when allocation or a thread spawn fails, and
0 otherwise.  There is no check of the previous `async_status`. -/
def fl2k_start_tx (dev : Option TxDev) (cb_null : Bool) (buf_num : ℕ)
    (env : StartEnv) : Option TxDev × FlErr :=
  match dev with
  | none => (none, FlErr.invalidParam)
  | some d =>
    if cb_null then (some d, FlErr.invalidParam)
    else
      let num := if buf_num > 0 then buf_num else DEFAULT_BUF_NUMBER
      let d1 : TxDev :=
        { d with
            async_status := AsyncStatus.running
            async_cancel := false
            has_cb := true
            xfer_num := num
            xfer_buf_num := num + 2
            xfer_buf_len := FL2K_XFER_LEN }
      if env.alloc_fails then (some d1, FlErr.busy)
      else if env.usb_thread_fails then (some d1, FlErr.busy)
      else if env.sample_thread_fails then (some d1, FlErr.busy)
      else (some d1, FlErr.success)

/-- Counterexample for C4: `fl2k_start_tx` invoked on a handle whose status
is RUNNING, with a valid callback and all internal steps succeeding,
returns success — not BUSY — and leaves a (new) session running. -/
theorem fl2k_start_tx_running_not_busy :
    (fl2k_start_tx (some ⟨AsyncStatus.running, false, true, 4, 6, FL2K_XFER_LEN⟩)
        false 4 ⟨false, false, false⟩).2 = FlErr.success ∧
    (fl2k_start_tx (some ⟨AsyncStatus.running, false, true, 4, 6, FL2K_XFER_LEN⟩)
        false 4 ⟨false, false, false⟩).2 ≠ FlErr.busy := by
  constructor
  · rfl
  · intro h
    simp [fl2k_start_tx] at h

/-- Amended claim C4: `fl2k_start_tx` never checks the engine status.  With a
non-null handle and callback it unconditionally starts a session (status
RUNNING in the returned handle) and returns BUSY exactly when the
transfer allocation or one of the two worker-thread spawns fails. -/
theorem fl2k_start_tx_busy_iff_alloc_or_spawn_fails (d : TxDev) (buf_num : ℕ)
    (env : StartEnv) :
    ((fl2k_start_tx (some d) false buf_num env).2 = FlErr.busy ↔
      (env.alloc_fails = true ∨ env.usb_thread_fails = true ∨
        env.sample_thread_fails = true)) ∧
    ∃ d1, (fl2k_start_tx (some d) false buf_num env).1 = some d1 ∧
      d1.async_status = AsyncStatus.running := by
  constructor
  · cases h1 : env.alloc_fails <;> cases h2 : env.usb_thread_fails <;>
      cases h3 : env.sample_thread_fails <;>
      simp [fl2k_start_tx, h1, h2, h3]
  · refine ⟨{ d with
        async_status := AsyncStatus.running
        async_cancel := false
        has_cb := true
        xfer_num := if buf_num > 0 then buf_num else DEFAULT_BUF_NUMBER
        xfer_buf_num := (if buf_num > 0 then buf_num else DEFAULT_BUF_NUMBER) + 2
        xfer_buf_len := FL2K_XFER_LEN }, ?_, rfl⟩
    cases h1 : env.alloc_fails <;> cases h2 : env.usb_thread_fails <;>
      cases h3 : env.sample_thread_fails <;>
      simp [fl2k_start_tx, h1, h2, h3]

/-! ## `fl2k_read_reg` -/

/-- Embedding of `fl2k_read_reg`.  `dev_ok` stands for
`dev != NULL && val != NULL`; `transfer_ret` is the `int` returned by
`libusb_control_transfer` (byte count, or a negative `LIBUSB_ERROR_*`);
`data` is whatever the 4-byte buffer holds afterwards (uninitialized
memory when the transfer failed).  The C code stores the return value in
`uint32_t r` and compares `r < sizeof(data)` — an unsigned comparison, so
a negative return becomes a huge unsigned value and passes the check. -/
def fl2k_read_reg (dev_ok : Bool) (transfer_ret : Int) (data : Fin 4 → ℕ) :
    FlErr × Option ℕ :=
  if dev_ok = false then (FlErr.invalidParam, none)
  else
    let r : ℕ := (transfer_ret % (2 ^ 32 : ℤ)).toNat
    if r < 4 then (FlErr.other, none)
    else (FlErr.success,
      some ((data 3 <<< 24) ||| (data 2 <<< 16) ||| (data 1 <<< 8) ||| data 0))

/-- Claim C8: the claim says any transfer outcome delivering fewer than 4 bytes
— error results included — yields an error return.  The code violates
this: a transfer error such as `LIBUSB_ERROR_IO` (−1) wraps to
4294967295 in the `uint32_t r`, passes the `r < sizeof(data)` check, and
the function returns success with a value decoded from the uninitialized
buffer.  Nonnegative short counts (0–3 bytes) are rejected as the claim
states. -/
theorem fl2k_read_reg_misreports_negative_return :
    (fl2k_read_reg true (-1) (fun _ => 0)).1 = FlErr.success ∧
    (-1 : Int) < 4 ∧
    (fl2k_read_reg true 3 (fun _ => 0)).1 = FlErr.other := by
  refine ⟨rfl, by norm_num, rfl⟩

/-! ## `fl2k_set_mode` and palette programming -/

/-- DAC mode, `fl2k_mode_t` (values live in the missing header; only the
distinction matters). -/
inductive FlMode where
  | singlechan
  | multichan
  deriving DecidableEq, Repr

/-- Outcomes of the register I/O a control-plane call performs:
whether a read/write of a given register succeeds, and the value a
successful read returns. -/
structure RegEnv where
  read_ok : ℕ → Bool
  read_val : ℕ → ℕ
  write_ok : ℕ → ℕ → Bool

/-- A device-register access, for tracking which registers a call
touches. -/
inductive RegOp where
  | read (addr : ℕ)
  | write (addr : ℕ) (val : ℕ)
  deriving DecidableEq, Repr

/-- Device-handle fields `fl2k_set_mode` touches. -/
structure ModeDev where
  async_status : AsyncStatus
  mode : FlMode
  deriving DecidableEq, Repr

/-- Verify loop of `fl2k_load_custom_palette`: for each index, write the
read pointer to 0x8060 (with the +1 quirk) and read back 0x805c; abort
with OTHER when either access fails; mismatches are only logged. -/
def paletteVerifyFrom (env : RegEnv) (i : ℕ) : ℕ → FlErr × List RegOp
  | 0 => (FlErr.success, [])
  | fuel + 1 =>
    let w := RegOp.write 0x8060 ((i + 1) &&& 0xff)
    let rd := RegOp.read 0x805c
    if env.write_ok 0x8060 ((i + 1) &&& 0xff) && env.read_ok 0x805c then
      let rest := paletteVerifyFrom env (i + 1) fuel
      (rest.1, w :: rd :: rest.2)
    else (FlErr.other, [w, rd])

/-- Embedding of `fl2k_load_custom_palette`: 256 writes of
`palette[i] << 8 | (i & 0xff)` to 0x805c (failures only logged), then the
verify loop. -/
def fl2k_load_custom_palette (env : RegEnv) (palette : ℕ → ℕ) : FlErr × List RegOp :=
  let writes := (List.range 256).map
    (fun i => RegOp.write 0x805c ((palette i) <<< 8 ||| (i &&& 0xff)))
  let v := paletteVerifyFrom env 0 256
  (v.1, writes ++ v.2)

/-- Embedding of `fl2k_set_enabled_channels`: program a linear ramp on
the channels of `chan_mask` (R = bit 0, G = bit 1, B = bit 2). -/
def fl2k_set_enabled_channels (env : RegEnv) (chan_mask : ℕ) : FlErr × List RegOp :=
  fl2k_load_custom_palette env (fun i =>
    (if chan_mask &&& 1 ≠ 0 then i <<< 16 else 0) |||
    (if chan_mask &&& 2 ≠ 0 then i <<< 8 else 0) |||
    (if chan_mask &&& 4 ≠ 0 then i else 0))

/-- Embedding of `fl2k_set_mode` on a non-null handle.  Guards first:
BUSY while RUNNING, silent success when the mode is unchanged; otherwise
read 0x8004, set or clear bits 25–26 (single-channel additionally
programs the palette ramp on R; its result is overwritten by the final
write's result, as in the C code), write 0x8004 back, and record the new
mode only when that write succeeds.  The second component lists every
device-register access performed. -/
def fl2k_set_mode (dev : ModeDev) (mode : FlMode) (env : RegEnv) :
    ModeDev × FlErr × List RegOp :=
  if dev.async_status = AsyncStatus.running then (dev, FlErr.busy, [])
  else if dev.mode = mode then (dev, FlErr.success, [])
  else if env.read_ok 0x8004 = false then (dev, FlErr.other, [RegOp.read 0x8004])
  else
    let reg0 := env.read_val 0x8004
    match mode with
    | FlMode.singlechan =>
      let reg := reg0 ||| (1 <<< 25) ||| (1 <<< 26)
      let pal := fl2k_set_enabled_channels env 1
      let ops := RegOp.read 0x8004 :: pal.2 ++ [RegOp.write 0x8004 reg]
      if env.write_ok 0x8004 reg then ({ dev with mode := mode }, FlErr.success, ops)
      else (dev, FlErr.other, ops)
    | FlMode.multichan =>
      let reg := reg0 &&& 0xf9ffffff
      let ops := [RegOp.read 0x8004, RegOp.write 0x8004 reg]
      if env.write_ok 0x8004 reg then ({ dev with mode := mode }, FlErr.success, ops)
      else (dev, FlErr.other, ops)

/-- Claim C9: `fl2k_set_mode` returns BUSY whenever the engine is RUNNING,
before any register access and without changing the stored mode; and it
is idempotent: outside RUNNING, a call with the handle's current mode
returns success with no register access and no state change. -/
theorem fl2k_set_mode_guards (dev : ModeDev) (mode : FlMode) (env : RegEnv) :
    (dev.async_status = AsyncStatus.running →
      fl2k_set_mode dev mode env = (dev, FlErr.busy, [])) ∧
    (dev.async_status ≠ AsyncStatus.running → dev.mode = mode →
      fl2k_set_mode dev mode env = (dev, FlErr.success, [])) := by
  constructor
  · intro h
    simp [fl2k_set_mode, h]
  · intro h hm
    simp [fl2k_set_mode, h, hm]

/-- Witness for C9: a RUNNING handle gets BUSY untouched; an INACTIVE
handle asked for its current mode gets a silent success. -/
theorem fl2k_set_mode_guards_witness :
    fl2k_set_mode ⟨AsyncStatus.running, FlMode.multichan⟩ FlMode.multichan
        ⟨fun _ => true, fun _ => 0, fun _ _ => true⟩ =
      (⟨AsyncStatus.running, FlMode.multichan⟩, FlErr.busy, []) ∧
    fl2k_set_mode ⟨AsyncStatus.inactive, FlMode.multichan⟩ FlMode.multichan
        ⟨fun _ => true, fun _ => 0, fun _ _ => true⟩ =
      (⟨AsyncStatus.inactive, FlMode.multichan⟩, FlErr.success, []) :=
  ⟨(fl2k_set_mode_guards ⟨AsyncStatus.running, FlMode.multichan⟩ FlMode.multichan
      ⟨fun _ => true, fun _ => 0, fun _ _ => true⟩).1 rfl,
    (fl2k_set_mode_guards ⟨AsyncStatus.inactive, FlMode.multichan⟩ FlMode.multichan
      ⟨fun _ => true, fun _ => 0, fun _ _ => true⟩).2 (by simp) rfl⟩

/-! ## Format conversion (`fl2k_convert_r` / `_g` / `_b` / `_singlechan`)

Each conversion loop walks the output in fixed-size groups and performs
eight byte assignments `out[i + d] = in[j + s] + offset` per group; the
four functions differ only in the list of `(d, s)` destination/source
offsets and in the group strides.  Buffers are total functions
`ℕ → Byte`; a C `char` store is `Function.update`. -/

/-- Bytes as C `char` values with wraparound arithmetic. -/
abbrev Byte := ZMod 256

/-- One group of assignments `out[i + d] = in[j + s] + offset`, performed
left to right. -/
def applyGroup : List (ℕ × ℕ) → (ℕ → Byte) → Byte → ℕ → ℕ → (ℕ → Byte) → (ℕ → Byte)
  | [], _, _, _, _, out => out
  | (d, s) :: rest, inp, off, i, j, out =>
    applyGroup rest inp off i j (Function.update out (i + d) (inp (j + s) + off))

/-- The conversion loop: while `i < len`, write one group at output base
`i` from input base `j`, then advance `i` by the output stride `oS` and
`j` by the input stride `iS`.  (The successor form `i + (oS - 1) + 1`
equals `i + oS` for every stride the code uses, `oS ≥ 1`, and makes the
measure decrease unconditionally.) -/
def convertLoop (pairs : List (ℕ × ℕ)) (oS iS : ℕ) (inp : ℕ → Byte) (len : ℕ)
    (off : Byte) (i j : ℕ) (out : ℕ → Byte) : ℕ → Byte :=
  if h : i < len then
    convertLoop pairs oS iS inp len off (i + (oS - 1) + 1) (j + iS)
      (applyGroup pairs inp off i j out)
  else out
termination_by len - i
decreasing_by omega

/-- Source offset written to destination offset `p`, if any: the lookup
the group's assignment list induces. -/
def srcFor : List (ℕ × ℕ) → ℕ → Option ℕ
  | [], _ => none
  | (d, s) :: rest, p => if p = d then some s else srcFor rest p

theorem srcFor_mem : ∀ (pairs : List (ℕ × ℕ)) (p s : ℕ),
    srcFor pairs p = some s → (p, s) ∈ pairs := by
  intro pairs
  induction pairs with
  | nil => intro p s h; simp [srcFor] at h
  | cons pr rest ih =>
    intro p s h
    obtain ⟨d, s0⟩ := pr
    simp only [srcFor] at h
    by_cases hp : p = d
    · rw [if_pos hp] at h
      cases h
      exact hp ▸ List.mem_cons_self _ _
    · rw [if_neg hp] at h
      exact List.mem_cons_of_mem _ (ih p s h)

theorem srcFor_none : ∀ (pairs : List (ℕ × ℕ)) (p : ℕ),
    srcFor pairs p = none → ∀ s, (p, s) ∉ pairs := by
  intro pairs
  induction pairs with
  | nil => intro p _ s h; simp at h
  | cons pr rest ih =>
    intro p h s hmem
    obtain ⟨d, s0⟩ := pr
    simp only [srcFor] at h
    by_cases hp : p = d
    · rw [if_pos hp] at h; cases h
    · rw [if_neg hp] at h
      rcases List.mem_cons.mp hmem with heq | hmem2
      · cases heq; exact hp rfl
      · exact ih p h s hmem2

theorem applyGroup_untouched : ∀ (pairs : List (ℕ × ℕ)) (inp : ℕ → Byte) (off : Byte)
    (i j : ℕ) (out : ℕ → Byte) (n : ℕ), (∀ pr ∈ pairs, n ≠ i + pr.1) →
    applyGroup pairs inp off i j out n = out n := by
  intro pairs
  induction pairs with
  | nil => intro inp off i j out n _; rfl
  | cons pr rest ih =>
    intro inp off i j out n hno
    obtain ⟨d, s⟩ := pr
    simp only [applyGroup]
    rw [ih inp off i j _ n (fun q hq => hno q (List.mem_cons_of_mem _ hq))]
    exact Function.update_noteq (hno (d, s) (List.mem_cons_self _ _)) _ out

theorem applyGroup_written : ∀ (pairs : List (ℕ × ℕ)),
    (pairs.map Prod.fst).Nodup →
    ∀ (inp : ℕ → Byte) (off : Byte) (i j : ℕ) (out : ℕ → Byte) (d s : ℕ),
      (d, s) ∈ pairs →
      applyGroup pairs inp off i j out (i + d) = inp (j + s) + off := by
  intro pairs
  induction pairs with
  | nil => intro _ inp off i j out d s h; simp at h
  | cons pr rest ih =>
    intro hnd inp off i j out d s hmem
    obtain ⟨d0, s0⟩ := pr
    simp only [List.map_cons, List.nodup_cons] at hnd
    obtain ⟨hd0, hndr⟩ := hnd
    rcases List.mem_cons.mp hmem with heq | hmem2
    · cases heq
      simp only [applyGroup]
      rw [applyGroup_untouched rest inp off i j _ (i + d) ?_]
      · exact Function.update_same _ _ _
      · intro q hq he
        exact hd0 (by
          have : d = q.1 := by omega
          rw [this]
          exact List.mem_map_of_mem Prod.fst hq)
    · simp only [applyGroup]
      exact ih hndr inp off i j _ d s hmem2

/-- Characterization of the conversion loop started at group `k`
(output base `oS * k`, input base `iS * k`): position `n` holds the
permuted input byte when `n` lies in a processed group and some
assignment targets its in-group offset, and is untouched otherwise. -/
theorem convertLoop_spec (pairs : List (ℕ × ℕ)) (oS iS : ℕ) (inp : ℕ → Byte)
    (len : ℕ) (off : Byte)
    (hdlt : ∀ pr ∈ pairs, pr.1 < oS) (hnd : (pairs.map Prod.fst).Nodup)
    (hoS : 1 ≤ oS) (hlen : oS ∣ len) :
    ∀ (k : ℕ) (out : ℕ → Byte) (n : ℕ),
      convertLoop pairs oS iS inp len off (oS * k) (iS * k) out n =
        if oS * k ≤ n ∧ n < len then
          (match srcFor pairs (n % oS) with
            | some s => inp (iS * (n / oS) + s) + off
            | none => out n)
        else out n := by
  have main : ∀ (fuel k : ℕ), len - oS * k ≤ fuel → ∀ (out : ℕ → Byte) (n : ℕ),
      convertLoop pairs oS iS inp len off (oS * k) (iS * k) out n =
        if oS * k ≤ n ∧ n < len then
          (match srcFor pairs (n % oS) with
            | some s => inp (iS * (n / oS) + s) + off
            | none => out n)
        else out n := by
    intro fuel
    induction fuel with
    | zero =>
      intro k hk out n
      have hstop : ¬ oS * k < len := by omega
      rw [convertLoop, dif_neg hstop]
      rw [if_neg (by omega)]
    | succ fuel ih =>
      intro k hk out n
      by_cases hgo : oS * k < len
      · have hostep : oS * k + (oS - 1) + 1 = oS * (k + 1) := by
          have h1 : oS * (k + 1) = oS * k + oS * 1 := Nat.mul_add oS k 1
          rw [Nat.mul_one] at h1
          omega
        have histep : iS * k + iS = iS * (k + 1) := by
          have h1 : iS * (k + 1) = iS * k + iS * 1 := Nat.mul_add iS k 1
          rw [Nat.mul_one] at h1
          omega
        have hnext : oS * (k + 1) ≤ len := by
          obtain ⟨G, hG⟩ := hlen
          have hkG : k < G := by
            by_contra hc
            push_neg at hc
            have : oS * G ≤ oS * k := Nat.mul_le_mul_left oS hc
            omega
          have : k + 1 ≤ G := hkG
          calc oS * (k + 1) ≤ oS * G := Nat.mul_le_mul_left oS this
            _ = len := hG.symm
        have hfuel : len - oS * (k + 1) ≤ fuel := by omega
        rw [convertLoop, dif_pos hgo, hostep, histep]
        rw [ih (k + 1) hfuel _ n]
        by_cases hn1 : oS * (k + 1) ≤ n ∧ n < len
        · rw [if_pos hn1, if_pos (by omega)]
          cases hsrc : srcFor pairs (n % oS) with
          | some s => rfl
          | none =>
            rw [applyGroup_untouched pairs inp off (oS * k) (iS * k) out n ?_]
            intro pr hpr he
            have h1 := hdlt pr hpr
            omega
        · rw [if_neg hn1]
          by_cases hn2 : oS * k ≤ n ∧ n < len
          · rw [if_pos hn2]
            have hr : n = oS * k + (n - oS * k) := by omega
            have hrlt : n - oS * k < oS := by omega
            have hmod : n % oS = n - oS * k := by
              conv_lhs => rw [hr]
              rw [Nat.add_comm]
              rw [Nat.add_mul_mod_self_left]
              exact Nat.mod_eq_of_lt hrlt
            have hdiv : n / oS = k := by
              conv_lhs => rw [hr]
              rw [Nat.add_comm, Nat.add_mul_div_left _ _ (by omega : 0 < oS)]
              rw [Nat.div_eq_of_lt hrlt]
              omega
            cases hsrc : srcFor pairs (n % oS) with
            | some s =>
              have hmem : (n % oS, s) ∈ pairs := srcFor_mem pairs _ s hsrc
              have := applyGroup_written pairs hnd inp off (oS * k) (iS * k) out
                (n % oS) s hmem
              rw [hmod] at this
              rw [show oS * k + (n - oS * k) = n from by omega] at this
              rw [this, hdiv]
            | none =>
              rw [applyGroup_untouched pairs inp off (oS * k) (iS * k) out n ?_]
              intro pr hpr he
              have h1 := hdlt pr hpr
              have h2 : pr.1 = n - oS * k := by omega
              have h3 : (n % oS, pr.2) ∈ pairs := by
                rw [hmod, ← h2]
                exact hpr
              exact srcFor_none pairs (n % oS) hsrc pr.2 h3
          · rw [if_neg hn2]
            rw [applyGroup_untouched pairs inp off (oS * k) (iS * k) out n ?_]
            intro pr hpr he
            have h1 := hdlt pr hpr
            omega
      · rw [convertLoop, dif_neg hgo, if_neg (by omega)]
  intro k out n
  exact main (len - oS * k) k (le_refl _) out n

/-- Assignments of `fl2k_convert_r`: `out[i+6]=in[j] ... out[i+19]=in[j+7]`
in source order. -/
def rPairs : List (ℕ × ℕ) :=
  [(6, 0), (1, 1), (12, 2), (15, 3), (10, 4), (21, 5), (16, 6), (19, 7)]

/-- Assignments of `fl2k_convert_g`. -/
def gPairs : List (ℕ × ℕ) :=
  [(5, 0), (0, 1), (3, 2), (14, 3), (9, 4), (20, 5), (23, 6), (18, 7)]

/-- Assignments of `fl2k_convert_b`. -/
def bPairs : List (ℕ × ℕ) :=
  [(4, 0), (7, 1), (2, 2), (13, 3), (8, 4), (11, 5), (22, 6), (17, 7)]

/-- Assignments of `fl2k_convert_singlechan`:
`out[i+0]=in[i+4] ... out[i+7]=in[i+3]` (32-bit word swap). -/
def scPairs : List (ℕ × ℕ) :=
  [(0, 4), (1, 5), (2, 6), (3, 7), (4, 0), (5, 1), (6, 2), (7, 3)]

/-- Embedding of `fl2k_convert_r`: groups of 24 output bytes per 8 input
samples, loop `for (i = 0; i < len; i += 24)` with `j` advancing by 8. -/
def fl2k_convert_r (inp : ℕ → Byte) (len : ℕ) (off : Byte) (out : ℕ → Byte) : ℕ → Byte :=
  convertLoop rPairs 24 8 inp len off 0 0 out

/-- Embedding of `fl2k_convert_g`. -/
def fl2k_convert_g (inp : ℕ → Byte) (len : ℕ) (off : Byte) (out : ℕ → Byte) : ℕ → Byte :=
  convertLoop gPairs 24 8 inp len off 0 0 out

/-- Embedding of `fl2k_convert_b`. -/
def fl2k_convert_b (inp : ℕ → Byte) (len : ℕ) (off : Byte) (out : ℕ → Byte) : ℕ → Byte :=
  convertLoop bPairs 24 8 inp len off 0 0 out

/-- Embedding of `fl2k_convert_singlechan`: 8-byte groups, input and
output advance together (`for (i = 0; i < len; i += 8)`). -/
def fl2k_convert_singlechan (inp : ℕ → Byte) (len : ℕ) (off : Byte)
    (out : ℕ → Byte) : ℕ → Byte :=
  convertLoop scPairs 8 8 inp len off 0 0 out

theorem fl2k_convert_r_eq {inp out : ℕ → Byte} {off : Byte} {len : ℕ}
    (hlen : 24 ∣ len) (n : ℕ) :
    fl2k_convert_r inp len off out n =
      if n < len then
        (match srcFor rPairs (n % 24) with
          | some s => inp (8 * (n / 24) + s) + off
          | none => out n)
      else out n := by
  have h := convertLoop_spec rPairs 24 8 inp len off (by decide) (by decide)
    (by norm_num) hlen 0 out n
  simp only [Nat.mul_zero] at h
  rw [fl2k_convert_r, h]
  by_cases hn : n < len
  · rw [if_pos ⟨Nat.zero_le n, hn⟩, if_pos hn]
  · rw [if_neg (by omega), if_neg hn]

theorem fl2k_convert_g_eq {inp out : ℕ → Byte} {off : Byte} {len : ℕ}
    (hlen : 24 ∣ len) (n : ℕ) :
    fl2k_convert_g inp len off out n =
      if n < len then
        (match srcFor gPairs (n % 24) with
          | some s => inp (8 * (n / 24) + s) + off
          | none => out n)
      else out n := by
  have h := convertLoop_spec gPairs 24 8 inp len off (by decide) (by decide)
    (by norm_num) hlen 0 out n
  simp only [Nat.mul_zero] at h
  rw [fl2k_convert_g, h]
  by_cases hn : n < len
  · rw [if_pos ⟨Nat.zero_le n, hn⟩, if_pos hn]
  · rw [if_neg (by omega), if_neg hn]

theorem fl2k_convert_b_eq {inp out : ℕ → Byte} {off : Byte} {len : ℕ}
    (hlen : 24 ∣ len) (n : ℕ) :
    fl2k_convert_b inp len off out n =
      if n < len then
        (match srcFor bPairs (n % 24) with
          | some s => inp (8 * (n / 24) + s) + off
          | none => out n)
      else out n := by
  have h := convertLoop_spec bPairs 24 8 inp len off (by decide) (by decide)
    (by norm_num) hlen 0 out n
  simp only [Nat.mul_zero] at h
  rw [fl2k_convert_b, h]
  by_cases hn : n < len
  · rw [if_pos ⟨Nat.zero_le n, hn⟩, if_pos hn]
  · rw [if_neg (by omega), if_neg hn]

theorem fl2k_convert_singlechan_eq {inp out : ℕ → Byte} {off : Byte} {len : ℕ}
    (hlen : 8 ∣ len) (n : ℕ) :
    fl2k_convert_singlechan inp len off out n =
      if n < len then
        (match srcFor scPairs (n % 8) with
          | some s => inp (8 * (n / 8) + s) + off
          | none => out n)
      else out n := by
  have h := convertLoop_spec scPairs 8 8 inp len off (by decide) (by decide)
    (by norm_num) hlen 0 out n
  simp only [Nat.mul_zero] at h
  rw [fl2k_convert_singlechan, h]
  by_cases hn : n < len
  · rw [if_pos ⟨Nat.zero_le n, hn⟩, if_pos hn]
  · rw [if_neg (by omega), if_neg hn]

/-- The three channel conversions applied in the order the sample worker
uses: R, then G, then B, all into the same transfer buffer. -/
def fl2k_multichan_convert (inpR inpG inpB : ℕ → Byte) (len : ℕ) (off : Byte)
    (out : ℕ → Byte) : ℕ → Byte :=
  fl2k_convert_b inpB len off (fl2k_convert_g inpG len off (fl2k_convert_r inpR len off out))

theorem multichan_at {inpR inpG inpB out : ℕ → Byte} {off : Byte} {len : ℕ}
    (hlen : 24 ∣ len) (k p : ℕ) (hp : p < 24) (hlt : 24 * k + p < len) :
    fl2k_multichan_convert inpR inpG inpB len off out (24 * k + p) =
      match srcFor bPairs p with
      | some s => inpB (8 * k + s) + off
      | none =>
        match srcFor gPairs p with
        | some s => inpG (8 * k + s) + off
        | none =>
          match srcFor rPairs p with
          | some s => inpR (8 * k + s) + off
          | none => out (24 * k + p) := by
  have hmod : (24 * k + p) % 24 = p := by omega
  have hdiv : (24 * k + p) / 24 = k := by omega
  rw [fl2k_multichan_convert, fl2k_convert_b_eq hlen, if_pos hlt, hmod, hdiv]
  cases hb : srcFor bPairs p with
  | some s => rfl
  | none =>
    rw [fl2k_convert_g_eq hlen, if_pos hlt, hmod, hdiv]
    cases hg : srcFor gPairs p with
    | some s => rfl
    | none =>
      rw [fl2k_convert_r_eq hlen, if_pos hlt, hmod, hdiv]

/-- Claim C3: in every 24-byte output group of the multi-channel conversion,
channel R's 8 consecutive input samples land at output offsets
6, 1, 12, 15, 10, 21, 16, 19, channel G's at 5, 0, 3, 14, 9, 20, 23, 18,
and channel B's at 4, 7, 2, 13, 8, 11, 22, 17, in input order; the three
offset sets are pairwise disjoint with union {0, …, 23}; hence the three
conversions together determine every output byte below `len`
independently of the buffer's prior contents. -/
theorem fl2k_multichan_permutation (len : ℕ) (hlen : 24 ∣ len)
    (inpR inpG inpB : ℕ → Byte) (off : Byte) (out out2 : ℕ → Byte) :
    (∀ k, 24 * k + 23 < len →
      (fl2k_multichan_convert inpR inpG inpB len off out (24 * k + 6) =
          inpR (8 * k) + off ∧
        fl2k_multichan_convert inpR inpG inpB len off out (24 * k + 1) =
          inpR (8 * k + 1) + off ∧
        fl2k_multichan_convert inpR inpG inpB len off out (24 * k + 12) =
          inpR (8 * k + 2) + off ∧
        fl2k_multichan_convert inpR inpG inpB len off out (24 * k + 15) =
          inpR (8 * k + 3) + off ∧
        fl2k_multichan_convert inpR inpG inpB len off out (24 * k + 10) =
          inpR (8 * k + 4) + off ∧
        fl2k_multichan_convert inpR inpG inpB len off out (24 * k + 21) =
          inpR (8 * k + 5) + off ∧
        fl2k_multichan_convert inpR inpG inpB len off out (24 * k + 16) =
          inpR (8 * k + 6) + off ∧
        fl2k_multichan_convert inpR inpG inpB len off out (24 * k + 19) =
          inpR (8 * k + 7) + off) ∧
      (fl2k_multichan_convert inpR inpG inpB len off out (24 * k + 5) =
          inpG (8 * k) + off ∧
        fl2k_multichan_convert inpR inpG inpB len off out (24 * k + 0) =
          inpG (8 * k + 1) + off ∧
        fl2k_multichan_convert inpR inpG inpB len off out (24 * k + 3) =
          inpG (8 * k + 2) + off ∧
        fl2k_multichan_convert inpR inpG inpB len off out (24 * k + 14) =
          inpG (8 * k + 3) + off ∧
        fl2k_multichan_convert inpR inpG inpB len off out (24 * k + 9) =
          inpG (8 * k + 4) + off ∧
        fl2k_multichan_convert inpR inpG inpB len off out (24 * k + 20) =
          inpG (8 * k + 5) + off ∧
        fl2k_multichan_convert inpR inpG inpB len off out (24 * k + 23) =
          inpG (8 * k + 6) + off ∧
        fl2k_multichan_convert inpR inpG inpB len off out (24 * k + 18) =
          inpG (8 * k + 7) + off) ∧
      (fl2k_multichan_convert inpR inpG inpB len off out (24 * k + 4) =
          inpB (8 * k) + off ∧
        fl2k_multichan_convert inpR inpG inpB len off out (24 * k + 7) =
          inpB (8 * k + 1) + off ∧
        fl2k_multichan_convert inpR inpG inpB len off out (24 * k + 2) =
          inpB (8 * k + 2) + off ∧
        fl2k_multichan_convert inpR inpG inpB len off out (24 * k + 13) =
          inpB (8 * k + 3) + off ∧
        fl2k_multichan_convert inpR inpG inpB len off out (24 * k + 8) =
          inpB (8 * k + 4) + off ∧
        fl2k_multichan_convert inpR inpG inpB len off out (24 * k + 11) =
          inpB (8 * k + 5) + off ∧
        fl2k_multichan_convert inpR inpG inpB len off out (24 * k + 22) =
          inpB (8 * k + 6) + off ∧
        fl2k_multichan_convert inpR inpG inpB len off out (24 * k + 17) =
          inpB (8 * k + 7) + off)) ∧
    (({6, 1, 12, 15, 10, 21, 16, 19} : Finset ℕ) ∩ {5, 0, 3, 14, 9, 20, 23, 18} = ∅ ∧
      ({6, 1, 12, 15, 10, 21, 16, 19} : Finset ℕ) ∩ {4, 7, 2, 13, 8, 11, 22, 17} = ∅ ∧
      ({5, 0, 3, 14, 9, 20, 23, 18} : Finset ℕ) ∩ {4, 7, 2, 13, 8, 11, 22, 17} = ∅ ∧
      ({6, 1, 12, 15, 10, 21, 16, 19} : Finset ℕ) ∪ {5, 0, 3, 14, 9, 20, 23, 18} ∪
        {4, 7, 2, 13, 8, 11, 22, 17} = Finset.range 24) ∧
    (∀ n, n < len →
      fl2k_multichan_convert inpR inpG inpB len off out n =
        fl2k_multichan_convert inpR inpG inpB len off out2 n) := by
  refine ⟨?_, by decide, ?_⟩
  · intro k hlt
    refine ⟨⟨?_, ?_, ?_, ?_, ?_, ?_, ?_, ?_⟩, ⟨?_, ?_, ?_, ?_, ?_, ?_, ?_, ?_⟩,
      ⟨?_, ?_, ?_, ?_, ?_, ?_, ?_, ?_⟩⟩ <;>
      (rw [multichan_at hlen k _ (by norm_num) (by omega)]; rfl)
  · intro n hn
    have hcover : ∀ p, p < 24 →
        ¬(srcFor bPairs p = none ∧ srcFor gPairs p = none ∧ srcFor rPairs p = none) := by
      decide
    have hsplit : n = 24 * (n / 24) + n % 24 := by omega
    rw [hsplit, multichan_at hlen (n / 24) (n % 24) (by omega) (by omega),
      multichan_at hlen (n / 24) (n % 24) (by omega) (by omega)]
    cases hb : srcFor bPairs (n % 24) with
    | some s => rfl
    | none =>
      cases hg : srcFor gPairs (n % 24) with
      | some s => rfl
      | none =>
        cases hr : srcFor rPairs (n % 24) with
        | some s => rfl
        | none => exact absurd ⟨hb, hg, hr⟩ (hcover (n % 24) (by omega))

/-- Witness for C3 at `len = 24`, group 0, offset 6 of channel R. -/
theorem fl2k_multichan_permutation_witness :
    fl2k_multichan_convert (fun j => (j : Byte)) (fun j => (j : Byte) + 100)
        (fun j => (j : Byte) + 200) 24 0 (fun _ => 0) (24 * 0 + 6) =
      (fun j => (j : Byte)) (8 * 0) + 0 :=
  ((fl2k_multichan_permutation 24 (by norm_num) (fun j => (j : Byte))
      (fun j => (j : Byte) + 100) (fun j => (j : Byte) + 200) 0 (fun _ => 0)
      (fun _ => 1)).1 0 (by norm_num)).1.1

theorem singlechan_at {inp out : ℕ → Byte} {off : Byte} {len : ℕ}
    (hlen : 8 ∣ len) (k p : ℕ) (hp : p < 8) (hlt : 8 * k + p < len) :
    fl2k_convert_singlechan inp len off out (8 * k + p) =
      match srcFor scPairs p with
      | some s => inp (8 * k + s) + off
      | none => out (8 * k + p) := by
  have hmod : (8 * k + p) % 8 = p := by omega
  have hdiv : (8 * k + p) / 8 = k := by omega
  rw [fl2k_convert_singlechan_eq hlen, if_pos hlt, hmod, hdiv]

theorem singlechan_group {inp out : ℕ → Byte} {off : Byte} {len : ℕ}
    (hlen : 8 ∣ len) (k : ℕ) (hlt : 8 * k + 7 < len) :
    fl2k_convert_singlechan inp len off out (8 * k + 0) = inp (8 * k + 4) + off ∧
    fl2k_convert_singlechan inp len off out (8 * k + 1) = inp (8 * k + 5) + off ∧
    fl2k_convert_singlechan inp len off out (8 * k + 2) = inp (8 * k + 6) + off ∧
    fl2k_convert_singlechan inp len off out (8 * k + 3) = inp (8 * k + 7) + off ∧
    fl2k_convert_singlechan inp len off out (8 * k + 4) = inp (8 * k + 0) + off ∧
    fl2k_convert_singlechan inp len off out (8 * k + 5) = inp (8 * k + 1) + off ∧
    fl2k_convert_singlechan inp len off out (8 * k + 6) = inp (8 * k + 2) + off ∧
    fl2k_convert_singlechan inp len off out (8 * k + 7) = inp (8 * k + 3) + off := by
  refine ⟨?_, ?_, ?_, ?_, ?_, ?_, ?_, ?_⟩ <;>
    (rw [singlechan_at hlen k _ (by norm_num) (by omega)]; rfl)

/-- Claim C7: the single-channel conversion rewrites every 8-byte group
`[b0..b7]` as `[b4,b5,b6,b7,b0,b1,b2,b3]` plus the bias, leaves bytes at
or beyond `len` untouched (same-length output), and with zero bias is an
involution on the first `len` bytes. -/
theorem fl2k_singlechan_swap_involution (len : ℕ) (hlen : 8 ∣ len)
    (inp out out2 : ℕ → Byte) (off : Byte) :
    (∀ k, 8 * k + 7 < len →
      fl2k_convert_singlechan inp len off out (8 * k + 0) = inp (8 * k + 4) + off ∧
      fl2k_convert_singlechan inp len off out (8 * k + 1) = inp (8 * k + 5) + off ∧
      fl2k_convert_singlechan inp len off out (8 * k + 2) = inp (8 * k + 6) + off ∧
      fl2k_convert_singlechan inp len off out (8 * k + 3) = inp (8 * k + 7) + off ∧
      fl2k_convert_singlechan inp len off out (8 * k + 4) = inp (8 * k + 0) + off ∧
      fl2k_convert_singlechan inp len off out (8 * k + 5) = inp (8 * k + 1) + off ∧
      fl2k_convert_singlechan inp len off out (8 * k + 6) = inp (8 * k + 2) + off ∧
      fl2k_convert_singlechan inp len off out (8 * k + 7) = inp (8 * k + 3) + off) ∧
    (∀ n, len ≤ n → fl2k_convert_singlechan inp len off out n = out n) ∧
    (∀ n, n < len →
      fl2k_convert_singlechan (fl2k_convert_singlechan inp len 0 out) len 0 out2 n =
        inp n) := by
  refine ⟨?_, ?_, ?_⟩
  · intro k hlt
    exact singlechan_group hlen k hlt
  · intro n hn
    rw [fl2k_convert_singlechan_eq hlen, if_neg (by omega)]
  · intro n hn
    obtain ⟨G, hG⟩ := hlen
    subst hG
    obtain ⟨k, p, hp, rfl⟩ : ∃ k p, p < 8 ∧ n = 8 * k + p :=
      ⟨n / 8, n % 8, by omega, by omega⟩
    have hdvd : (8 : ℕ) ∣ 8 * G := ⟨G, rfl⟩
    have hlt7 : 8 * k + 7 < 8 * G := by omega
    obtain ⟨e0, e1, e2, e3, e4, e5, e6, e7⟩ :=
      @singlechan_group (fl2k_convert_singlechan inp (8 * G) 0 out) out2 0 (8 * G)
        hdvd k hlt7
    obtain ⟨f0, f1, f2, f3, f4, f5, f6, f7⟩ :=
      @singlechan_group inp out 0 (8 * G) hdvd k hlt7
    interval_cases p
    · rw [e0, f4]; simp
    · rw [e1, f5]; simp
    · rw [e2, f6]; simp
    · rw [e3, f7]; simp
    · rw [e4, f0]; simp
    · rw [e5, f1]; simp
    · rw [e6, f2]; simp
    · rw [e7, f3]; simp

/-- Witness for C7 at `len = 8`: the double conversion restores byte 5. -/
theorem fl2k_singlechan_swap_involution_witness :
    fl2k_convert_singlechan (fl2k_convert_singlechan (fun j => (j : Byte)) 8 0
        (fun _ => 0)) 8 0 (fun _ => 1) 5 = ((5 : ℕ) : Byte) :=
  (fl2k_singlechan_swap_involution 8 (by norm_num) (fun j => (j : Byte))
    (fun _ => 0) (fun _ => 1) 0).2.2 5 (by norm_num)

end OsmoFl2k
